import Mathlib

/-!
Verification of the h2-quiz hangman game (src/h2-quiz.py).

Strings are modelled as `List Char`; Python's `set` of guessed strings is a
duplicate-free `List (List Char)` (membership is what matters).  Machine
integers are `Int` (Python integers are unbounded; the incorrect-guess counter
can go negative in the source).  Randomness (`random.choice`) is modelled by an
extra `pick : Nat` argument selecting an index into the candidate list.
Interactive I/O is dropped; one iteration of `game_loop` becomes the pure
`step` function, and a whole sequence of inputs is folded by `playGuesses`.
-/

namespace H2Quiz

/-- Constant MAX_SCORE = 100 from the source. -/
def MAX_SCORE : Int := 100

/-- Constant INITIAL_TIME = 30 from the source. -/
def INITIAL_TIME : Int := 30

/-- Constant HINT_THRESHOLD = 3 from the source. -/
def HINT_THRESHOLD : Int := 3

/-- The game-state dictionary built by `create_game_state`. -/
structure GameState where
  word : List Char
  guessedLetters : List (List Char)
  score : Int
  timeLeft : Int
  incorrectGuesses : Int
  hintUsed : Bool
deriving Repr, DecidableEq

/-- `create_game_state(word, guessed_letters, score, time_left)`:
lowercases the word, turns the guess list into a set (modelled by `dedup`),
and always resets `incorrect_guesses` to 0 and `hint_used` to `False`. -/
def create_game_state (word : List Char) (guessed : List (List Char))
    (score : Int) (timeLeft : Int) : GameState :=
  { word := word.map Char.toLower
    guessedLetters := guessed.dedup
    score := score
    timeLeft := timeLeft
    incorrectGuesses := 0
    hintUsed := false }

/-- `update_time(state, elapsed)`: subtract the (already truncated) elapsed
seconds and report whether time remains. -/
def update_time (s : GameState) (elapsed : Int) : GameState × Bool :=
  let s1 : GameState := { s with timeLeft := s.timeLeft - elapsed }
  (s1, decide (0 < s1.timeLeft))

/-- Python set `add`: insert only if not already present. -/
def insertGuess (g : List Char) (gl : List (List Char)) : List (List Char) :=
  if g ∈ gl then gl else g :: gl

/-- `add_guess(state, guess)`: add the raw guess to the guessed set and report
`guess in state["word"]`, which in Python is substring containment. -/
def add_guess (s : GameState) (g : List Char) : GameState × Bool :=
  ({ s with guessedLetters := insertGuess g s.guessedLetters },
   decide (g <:+: s.word))

/-- The win test `all(l in state["guessed_letters"] for l in state["word"])`. -/
def wordComplete (w : List Char) (gl : List (List Char)) : Bool :=
  w.all (fun l => decide ([l] ∈ gl))

/-- The literal input "save". -/
def saveStr : List Char := ['s', 'a', 'v', 'e']

/-- Result of one iteration of the `game_loop` body. -/
inductive StepResult where
  | savedExit (s : GameState)
  | lostTime (s : GameState)
  | won (s : GameState)
  | lostScore (s : GameState)
  | continueRound (s : GameState) (hint : Option Char)
deriving Repr, DecidableEq

/-- The game state carried by a step result. -/
def StepResult.state : StepResult → GameState
  | savedExit s => s
  | lostTime s => s
  | won s => s
  | lostScore s => s
  | continueRound s _ => s

/-- One iteration of the `game_loop` body (lines 152-212 of the source),
with the printing removed.  `guess` is the stripped, lowercased input,
`elapsed` the truncated elapsed seconds, and `pick` resolves the random
choice of a hint letter.  Faithful to the source, this keeps the source's
branches exactly: the wrong-guess branch decrements `incorrect_guesses`,
and the `else` branch (taken for any guess that is a substring of the word,
single correct letters included) increments it and subtracts 10 points. -/
def step (s : GameState) (guess : List Char) (elapsed : Int) (pick : Nat) :
    StepResult :=
  if guess = saveStr then .savedExit s
  else
    let t := update_time s elapsed
    if t.2 = false then .lostTime t.1
    else
      let s1 := t.1
      if guess = s1.word then .won s1
      else if guess.length = 1 ∧ guess.all Char.isAlpha ∧
                guess ∈ s1.guessedLetters then
        .continueRound s1 none
      else
        let a := add_guess s1 guess
        let s3 :=
          if a.2 = false then
            { a.1 with incorrectGuesses := a.1.incorrectGuesses - 1,
                       score := a.1.score - 10 }
          else
            { a.1 with incorrectGuesses := a.1.incorrectGuesses + 1,
                       score := a.1.score - 10 }
        if wordComplete s3.word s3.guessedLetters then .won s3
        else if s3.score ≤ 0 then .lostScore s3
        else if HINT_THRESHOLD ≤ s3.incorrectGuesses ∧ s3.hintUsed = false then
          let missing := s3.word.filter (fun l => !decide ([l] ∈ s3.guessedLetters))
          if missing.isEmpty then .continueRound s3 none
          else
            .continueRound { s3 with hintUsed := true }
              (some (missing.getD (pick % missing.length) ' '))
        else .continueRound s3 none

/-- Result of running a sequence of inputs through the loop. -/
inductive RoundEnd where
  | savedExit (s : GameState)
  | lostTime (s : GameState)
  | won (s : GameState)
  | lostScore (s : GameState)
  | inProgress (s : GameState)
deriving Repr, DecidableEq

/-- Fold a list of (guess, elapsed, pick) turns through `step`, stopping at
the first terminal result. -/
def playGuesses (s : GameState) : List (List Char × Int × Nat) → RoundEnd
  | [] => .inProgress s
  | (g, e, p) :: rest =>
    match step s g e p with
    | .continueRound s1 _ => playGuesses s1 rest
    | .savedExit s1 => .savedExit s1
    | .lostTime s1 => .lostTime s1
    | .won s1 => .won s1
    | .lostScore s1 => .lostScore s1

/-- Like `playGuesses`, but also collects every hint letter emitted. -/
def playGuessesH (s : GameState) :
    List (List Char × Int × Nat) → RoundEnd × List Char
  | [] => (.inProgress s, [])
  | (g, e, p) :: rest =>
    match step s g e p with
    | .continueRound s1 h =>
      let r := playGuessesH s1 rest
      (r.1, h.toList ++ r.2)
    | .savedExit s1 => (.savedExit s1, [])
    | .lostTime s1 => (.lostTime s1, [])
    | .won s1 => (.won s1, [])
    | .lostScore s1 => (.lostScore s1, [])

/-- The fresh round state built by `new_game` / `create_game_state` defaults. -/
def initState (w : List Char) : GameState :=
  create_game_state w [] MAX_SCORE INITIAL_TIME

/-- Python `str.strip()` on a line. -/
def pyStrip (l : List Char) : List Char :=
  ((l.dropWhile Char.isWhitespace).reverse.dropWhile Char.isWhitespace).reverse

/-- The three lines `save_game_state` writes (before the trailing newlines):
the word followed by one space, the comma-joined guessed letters, and the
remaining time.  Score is not written. -/
def save_game_state_lines (s : GameState) : List (List Char) :=
  [s.word ++ [' '],
   joinComma s.guessedLetters,
   (toString s.timeLeft).toList]
where
  /-- Python `",".join(...)`. -/
  joinComma : List (List Char) → List Char
    | [] => []
    | [g] => g
    | g :: rest => g ++ ',' :: joinComma rest

/-- Model of Python `int(str)`: optional surrounding whitespace, optional
sign, then at least one digit; anything else raises (here: `none`). -/
def parseInt (l : List Char) : Option Int :=
  match pyStrip l with
  | '-' :: ds =>
    if ds ≠ [] ∧ ds.all Char.isDigit then some (-(digitsToNat ds : Int)) else none
  | '+' :: ds =>
    if ds ≠ [] ∧ ds.all Char.isDigit then some (digitsToNat ds : Int) else none
  | ds =>
    if ds ≠ [] ∧ ds.all Char.isDigit then some (digitsToNat ds : Int) else none
where
  digitsToNat (ds : List Char) : Nat :=
    ds.foldl (fun a c => a * 10 + (c.toNat - 48)) 0

/-- `load_game_state`, given the stripped lines of the file.  The source
indexes `lines[0]`..`lines[3]` (word, guessed letters, score, time) and any
`IndexError`/`ValueError` is caught and turned into `None`. -/
def load_game_state (lines : List (List Char)) : Option GameState :=
  match lines[0]?, lines[1]?, lines[2]?, lines[3]? with
  | some w, some gl, some sc, some tl =>
    match parseInt sc, parseInt tl with
    | some scv, some tlv =>
      some (create_game_state w
        (if gl ≠ [] then gl.splitOn ',' else []) scv tlv)
    | _, _ => none
  | _, _, _, _ => none

/-- The three difficulty names. -/
inductive Difficulty where
  | easy
  | medium
  | hard
deriving Repr, DecidableEq

/-- The DIFFICULTY_PARAMS table: inclusive word-length ranges. -/
def DIFFICULTY_PARAMS : Difficulty → Nat × Nat
  | .easy => (4, 5)
  | .medium => (6, 7)
  | .hard => (8, 20)

/-- The length filter of `new_game` over the combined pool. -/
def filteredPool (custom diffWords : List (List Char)) (d : Difficulty) :
    List (List Char) :=
  (custom ++ diffWords).filter (fun w =>
    decide ((DIFFICULTY_PARAMS d).1 ≤ w.length) &&
    decide (w.length ≤ (DIFFICULTY_PARAMS d).2))

/-- `new_game` after the difficulty prompt: filter the custom plus
per-difficulty pools by length, return `None` when empty, otherwise build a
fresh state from a randomly chosen word (modelled by index `pick`). -/
def new_game (custom diffWords : List (List Char)) (d : Difficulty)
    (pick : Nat) : Option GameState :=
  let words := filteredPool custom diffWords d
  if words = [] then none
  else some (create_game_state (words.getD (pick % words.length) [])
    [] MAX_SCORE INITIAL_TIME)

/-! ## Helper lemmas -/

/-- Python substring containment of a single letter is membership. -/
lemma singleton_infix_iff (c : Char) (l : List Char) : [c] <:+: l ↔ c ∈ l := by
  constructor
  · intro h
    exact List.singleton_sublist.mp h.sublist
  · intro h
    obtain ⟨s, t, rfl⟩ := List.append_of_mem h
    exact ⟨s, t, by simp⟩

/-! ## Claim theorems -/

/-- Claim C1.  The claim says `save_game_state` followed by `load_game_state`
reproduces the word, the guessed letters and the remaining time.  On the
code it never does: the save format is three lines (word, guesses, time)
but the loader indexes a fourth line (`lines[3]`), so loading any file the
game itself saved raises `IndexError` and returns `None`.  Proved here for
every state. -/
theorem roundTrip_always_fails (s : GameState) :
    load_game_state ((save_game_state_lines s).map pyStrip) = none := rfl

/-- Claim C2.  Scoring of fresh single-letter guesses at the failing input
(fresh round on word "cat").  The claim says a wrong letter increments
`incorrectGuesses` by 1 and costs 10 points while a correct letter changes
neither.  The code does the opposite on the counter and charges both: the
wrong guess "x" yields `incorrectGuesses = -1`, and the correct guess "c"
yields `incorrectGuesses = 1` and `score = 90`. -/
theorem guess_scoring_at_failing_input :
    step (initState ['c', 'a', 't']) ['x'] 0 0 =
      .continueRound
        { word := ['c', 'a', 't'], guessedLetters := [['x']], score := 90,
          timeLeft := 30, incorrectGuesses := -1, hintUsed := false } none ∧
    step (initState ['c', 'a', 't']) ['c'] 0 0 =
      .continueRound
        { word := ['c', 'a', 't'], guessedLetters := [['c']], score := 90,
          timeLeft := 30, incorrectGuesses := 1, hintUsed := false } none :=
  ⟨rfl, rfl⟩

/-- Claim C3.  The claim says invalid input (not "save", not the word, not a
single letter) is rejected without mutating the state.  At the failing
input — the two-letter guess "xy" on a fresh round on "cat" — the code
instead falls through to `add_guess`: "xy" is inserted into
`guessedLetters`, the score drops to 90 and `incorrectGuesses` to -1. -/
theorem invalid_input_mutates_state :
    step (initState ['c', 'a', 't']) ['x', 'y'] 0 0 =
      .continueRound
        { word := ['c', 'a', 't'], guessedLetters := [['x', 'y']], score := 90,
          timeLeft := 30, incorrectGuesses := -1, hintUsed := false } none :=
  rfl

/-- Claim C4.  The claim says the hint fires only when `incorrectGuesses` reaches
3 through wrong guesses.  In the code a wrong guess decrements the counter
(guess "z" on a fresh "word" round gives -1), while three correct letters
"w", "o", "r" drive it to 3 and fire the hint (revealing 'd') with zero
wrong guesses made. -/
theorem hint_fires_after_correct_guesses :
    playGuessesH (initState ['w', 'o', 'r', 'd'])
        [(['w'], 0, 0), (['o'], 0, 0), (['r'], 0, 0)] =
      (.inProgress
        { word := ['w', 'o', 'r', 'd'], guessedLetters := [['r'], ['o'], ['w']],
          score := 70, timeLeft := 30, incorrectGuesses := 3, hintUsed := true },
       ['d']) ∧
    (step (initState ['w', 'o', 'r', 'd']) ['z'] 0 0).state.incorrectGuesses
      = -1 :=
  ⟨rfl, rfl⟩

/-- Claim C5.  The claim's scenario: word "cat", guesses "x", "c", "a", "t" with
no elapsed time should end `Won` with score 90.  The code does end the
round `Won`, but with score 60, because each correct letter also costs 10
points (and increments the incorrect counter). -/
theorem cat_scenario_final_score :
    playGuesses (initState ['c', 'a', 't'])
        [(['x'], 0, 0), (['c'], 0, 0), (['a'], 0, 0), (['t'], 0, 0)] =
      .won
        { word := ['c', 'a', 't'],
          guessedLetters := [['t'], ['a'], ['c'], ['x']], score := 60,
          timeLeft := 30, incorrectGuesses := 2, hintUsed := false } :=
  rfl


/-- When the guessed letter is already in `guessedLetters`, `step` only
updates the clock: it ends in `lostTime`, `won`, or re-prompts, never
touching score, counter, or guesses. -/
lemma step_repeat (s : GameState) (c : Char) (e : Int) (p : Nat)
    (halpha : c.isAlpha = true) (hmem : [c] ∈ s.guessedLetters) :
    step s [c] e p =
      if s.timeLeft - e ≤ 0 then .lostTime { s with timeLeft := s.timeLeft - e }
      else if [c] = s.word then .won { s with timeLeft := s.timeLeft - e }
      else .continueRound { s with timeLeft := s.timeLeft - e } none := by
  have hsave : ([c] : List Char) ≠ saveStr := by simp [saveStr]
  simp only [step, update_time]
  rw [if_neg hsave]
  by_cases htime : s.timeLeft - e ≤ 0
  · have hd : decide (0 < s.timeLeft - e) = false := by
      simp only [decide_eq_false_iff_not, not_lt]
      exact htime
    rw [if_pos hd, if_pos htime]
  · have hd : ¬(decide (0 < s.timeLeft - e) = false) := by
      simp only [decide_eq_false_iff_not, not_lt, not_le]
      omega
    rw [if_neg hd, if_neg htime]
    by_cases hword : [c] = s.word
    · rw [if_pos hword, if_pos hword]
    · rw [if_neg hword, if_neg hword, if_pos ⟨rfl, by simp [halpha], hmem⟩]

/-- Claim C6.  On every non-"save" turn, `timeLeft` is decremented by the
(already truncated) elapsed seconds first, and if the result is ≤ 0 the
round ends `lostTime` with the guess never evaluated: score, guessed
letters and the incorrect counter are exactly those of the incoming state. -/
theorem lostTime_before_guess (s : GameState) (g : List Char) (e : Int) (p : Nat)
    (hg : g ≠ saveStr) (ht : s.timeLeft - e ≤ 0) :
    step s g e p = .lostTime { s with timeLeft := s.timeLeft - e } := by
  simp only [step, update_time]
  rw [if_neg hg, if_pos]
  simp only [decide_eq_false_iff_not, not_lt]
  exact ht

/-- Witness for C6: the spec scenario, word "bat" with 30 seconds and guess
"z" submitted after 31 seconds, ends `lostTime` with the letter unevaluated. -/
theorem lostTime_before_guess_witness :
    step (initState ['b', 'a', 't']) ['z'] 31 0 =
      .lostTime { word := ['b', 'a', 't'], guessedLetters := [], score := 100,
                  timeLeft := -1, incorrectGuesses := 0, hintUsed := false } :=
  lostTime_before_guess (initState ['b', 'a', 't']) ['z'] 31 0
    (by decide) (by decide)

/-- Claim C7.  Guessing a single letter that is already in
`guessedLetters` never double-penalizes: the resulting state has the same
score, the same incorrect-guess counter and the same guessed-letter set. -/
theorem repeat_guess_unchanged (s : GameState) (c : Char) (e : Int) (p : Nat)
    (halpha : c.isAlpha = true) (hmem : [c] ∈ s.guessedLetters) :
    (step s [c] e p).state.score = s.score ∧
    (step s [c] e p).state.incorrectGuesses = s.incorrectGuesses ∧
    (step s [c] e p).state.guessedLetters = s.guessedLetters := by
  rw [step_repeat s c e p halpha hmem]
  split
  · exact ⟨rfl, rfl, rfl⟩
  · split
    · exact ⟨rfl, rfl, rfl⟩
    · exact ⟨rfl, rfl, rfl⟩

/-- Witness for C7: re-guessing "a" on a round on "cat" where "a" was
already guessed changes none of the three fields. -/
theorem repeat_guess_unchanged_witness :
    (step ⟨['c','a','t'], [['a']], 90, 30, 0, false⟩ ['a'] 0 0).state.score = 90 ∧
    (step ⟨['c','a','t'], [['a']], 90, 30, 0, false⟩ ['a'] 0 0).state.incorrectGuesses = 0 ∧
    (step ⟨['c','a','t'], [['a']], 90, 30, 0, false⟩ ['a'] 0 0).state.guessedLetters = [['a']] :=
  repeat_guess_unchanged ⟨['c','a','t'], [['a']], 90, 30, 0, false⟩ 'a' 0 0
    (by decide) (by decide)

/-- Claim C10.  Every file `load_game_state` successfully deserializes
yields a state with `incorrectGuesses = 0` and `hintUsed = false`,
whatever the file contains, because `create_game_state` hard-codes both. -/
theorem load_resets_counters (lines : List (List Char)) (st : GameState)
    (h : load_game_state lines = some st) :
    st.incorrectGuesses = 0 ∧ st.hintUsed = false := by
  simp only [load_game_state] at h
  split at h
  · split at h
    · injection h with h
      subst h
      exact ⟨rfl, rfl⟩
    · exact absurd h (by simp)
  · exact absurd h (by simp)

/-- Witness for C10: a concrete four-line save file loads successfully and
the loaded state has a zero counter and an unused hint. -/
theorem load_resets_counters_witness :
    (⟨['c','a','t'], [], 90, 25, 0, false⟩ : GameState).incorrectGuesses = 0 ∧
    (⟨['c','a','t'], [], 90, 25, 0, false⟩ : GameState).hintUsed = false :=
  load_resets_counters [['c','a','t'], [], ['9','0'], ['2','5']]
    ⟨['c','a','t'], [], 90, 25, 0, false⟩ (by decide)


/-- Claim C9.  The difficulty table is easy [4,5], medium [6,7],
hard [8,20], and for every difficulty `new_game` either fails (returns
`none`, no round started) exactly when the length-filtered pool of the
custom and difficulty lists is empty, or picks a word of that pool whose
length lies in the difficulty's inclusive range. -/
theorem new_game_word_in_range (custom diffWords : List (List Char))
    (d : Difficulty) (pick : Nat) :
    (DIFFICULTY_PARAMS .easy = (4, 5) ∧ DIFFICULTY_PARAMS .medium = (6, 7) ∧
     DIFFICULTY_PARAMS .hard = (8, 20)) ∧
    ((new_game custom diffWords d pick = none ∧
        filteredPool custom diffWords d = []) ∨
      (∃ st w, new_game custom diffWords d pick = some st ∧
        w ∈ custom ++ diffWords ∧
        (DIFFICULTY_PARAMS d).1 ≤ w.length ∧
        w.length ≤ (DIFFICULTY_PARAMS d).2 ∧
        st.word = w.map Char.toLower ∧ st.word.length = w.length)) := by
  refine ⟨⟨rfl, rfl, rfl⟩, ?_⟩
  by_cases h : filteredPool custom diffWords d = []
  · exact Or.inl ⟨by simp [new_game, h], h⟩
  · right
    have hlen : 0 < (filteredPool custom diffWords d).length :=
      List.length_pos.mpr h
    have hidx : pick % (filteredPool custom diffWords d).length <
        (filteredPool custom diffWords d).length := Nat.mod_lt _ hlen
    set w := (filteredPool custom diffWords d).getD
      (pick % (filteredPool custom diffWords d).length) [] with hw
    have hwmem : w ∈ filteredPool custom diffWords d := by
      rw [hw, List.getD_eq_getElem _ _ hidx]
      exact List.getElem_mem hidx
    have hfil : w ∈ custom ++ diffWords ∧
        ((DIFFICULTY_PARAMS d).1 ≤ w.length ∧
         w.length ≤ (DIFFICULTY_PARAMS d).2) := by
      simp only [filteredPool, List.mem_filter, Bool.and_eq_true,
        decide_eq_true_eq] at hwmem
      exact ⟨hwmem.1, hwmem.2⟩
    refine ⟨create_game_state w [] MAX_SCORE INITIAL_TIME, w, ?_,
      hfil.1, hfil.2.1, hfil.2.2, rfl, by simp [create_game_state]⟩
    simp only [new_game]
    rw [if_neg h]


/-- A fresh wrong single-character guess with no elapsed time: either the
10-point penalty exhausts the score and the round ends `lostScore`, or the
round continues with exactly 10 points less, the letter recorded, and the
word and clock untouched. -/
lemma step_wrong_fresh (s : GameState) (c : Char) (p : Nat)
    (hnw : c ∉ s.word) (hng : [c] ∉ s.guessedLetters)
    (ht : 0 < s.timeLeft)
    (l : Char) (hl : l ∈ s.word) (hlg : [l] ∉ s.guessedLetters) :
    (s.score ≤ 10 ∧ ∃ s1, step s [c] 0 p = .lostScore s1) ∨
    (10 < s.score ∧ ∃ s1 h, step s [c] 0 p = .continueRound s1 h ∧
      s1.word = s.word ∧ s1.score = s.score - 10 ∧
      s1.timeLeft = s.timeLeft ∧
      s1.guessedLetters = [c] :: s.guessedLetters) := by
  have hsave : ([c] : List Char) ≠ saveStr := by simp [saveStr]
  have htd : ¬(decide (0 < s.timeLeft - 0) = false) := by
    simp only [decide_eq_false_iff_not, not_lt, not_le, not_not]
    omega
  have hword : ([c] : List Char) ≠ s.word := by
    intro hq
    exact hnw (hq ▸ List.mem_singleton_self c)
  have hrep : ¬(([c] : List Char).length = 1 ∧ ([c].all Char.isAlpha) = true ∧
      [c] ∈ s.guessedLetters) := fun hcon => hng hcon.2.2
  have hwrong : decide (([c] : List Char) <:+: s.word) = false := by
    simp only [decide_eq_false_iff_not]
    rw [singleton_infix_iff]
    exact hnw
  have hlc : ([l] : List Char) ≠ [c] := by
    intro hq
    injection hq with h1 _
    exact hnw (h1 ▸ hl)
  have hcomp : wordComplete s.word ([c] :: s.guessedLetters) = false := by
    rw [Bool.eq_false_iff]
    intro hall
    rw [wordComplete, List.all_eq_true] at hall
    have hmem := of_decide_eq_true (hall l hl)
    rcases List.mem_cons.mp hmem with hq | hq
    · exact hlc hq
    · exact hlg hq
  have hmiss : (s.word.filter
      (fun x => !decide ([x] ∈ [c] :: s.guessedLetters))).isEmpty = false := by
    rw [List.isEmpty_eq_false_iff_exists_mem]
    refine ⟨l, List.mem_filter.mpr ⟨hl, ?_⟩⟩
    simp only [Bool.not_eq_eq_eq_not, Bool.not_true, decide_eq_false_iff_not,
      List.mem_cons, not_or]
    exact ⟨hlc, hlg⟩
  rcases le_or_lt s.score 10 with hs | hs
  · refine Or.inl ⟨hs, ?_⟩
    simp only [step, update_time, add_guess, insertGuess]
    rw [if_neg hsave, if_neg htd, if_neg hword, if_neg hrep, if_neg hng,
      if_pos hwrong]
    have hsc : s.score - 10 ≤ (0 : Int) := by omega
    simp [hcomp, hsc]
  · refine Or.inr ⟨hs, ?_⟩
    simp only [step, update_time, add_guess, insertGuess]
    rw [if_neg hsave, if_neg htd, if_neg hword, if_neg hrep, if_neg hng,
      if_pos hwrong]
    have hsc : ¬(s.score - 10 ≤ (0 : Int)) := by omega
    by_cases hhint : HINT_THRESHOLD ≤ s.incorrectGuesses - 1 ∧
        s.hintUsed = false
    · simp only [step, update_time, add_guess, insertGuess] at hsc ⊢
      simp [hcomp, hsc, hhint, hmiss]
      split
      · exact ⟨_, ⟨_, rfl⟩, rfl, rfl, rfl, rfl⟩
      · exact ⟨_, ⟨_, rfl⟩, rfl, rfl, rfl, rfl⟩
    · simp [hcomp, hsc, hhint]


/-- If every guess in the list is a fresh wrong letter, time does not
advance and the word is not yet complete, a positive score of at most 10
points per remaining guess is exhausted and the round ends `lostScore`. -/
lemma lostScore_of_all_wrong (gs : List Char) :
    ∀ s : GameState, gs.Nodup →
      (∀ c ∈ gs, c ∉ s.word ∧ [c] ∉ s.guessedLetters) →
      0 < s.timeLeft →
      (∃ l ∈ s.word, [l] ∉ s.guessedLetters) →
      0 < s.score → s.score ≤ 10 * (gs.length : Int) →
      ∃ s1, playGuesses s (gs.map (fun c => ([c], 0, 0))) = .lostScore s1 := by
  induction gs with
  | nil =>
    intro s _ _ _ _ hpos hle
    simp only [List.length_nil, Nat.cast_zero, mul_zero] at hle
    omega
  | cons c rest ih =>
    intro s hnd hwf ht hinc hpos hle
    obtain ⟨l, hl, hlg⟩ := hinc
    obtain ⟨hcw, hcg⟩ := hwf c (List.mem_cons_self c rest)
    rcases step_wrong_fresh s c 0 hcw hcg ht l hl hlg with
      ⟨hs10, s1, hstep⟩ | ⟨hs10, s1, hint, hstep, hword1, hsc, htl, hgl⟩
    · exact ⟨s1, by simp [playGuesses, hstep]⟩
    · have hunf : playGuesses s ((c :: rest).map (fun c => ([c], 0, 0))) =
          playGuesses s1 (rest.map (fun c => ([c], 0, 0))) := by
        simp [playGuesses, hstep]
      rw [hunf]
      refine ih s1 (List.nodup_cons.mp hnd).2 ?_ ?_ ?_ ?_ ?_
      · intro c2 hc2
        obtain ⟨h1, h2⟩ := hwf c2 (List.mem_cons_of_mem c hc2)
        constructor
        · rw [hword1]
          exact h1
        · rw [hgl]
          intro hm
          rcases List.mem_cons.mp hm with hq | hq
          · injection hq with hq1
            exact (List.nodup_cons.mp hnd).1 (hq1 ▸ hc2)
          · exact h2 hq
      · rw [htl]
        exact ht
      · refine ⟨l, ?_, ?_⟩
        · rw [hword1]
          exact hl
        · rw [hgl]
          intro hm
          rcases List.mem_cons.mp hm with hq | hq
          · injection hq with hq1
            exact hcw (hq1 ▸ hl)
          · exact hlg hq
      · rw [hsc]
        omega
      · rw [hsc]
        simp only [List.length_cons] at hle
        push_cast at hle ⊢
        omega

/-- Claim C8.  From a fresh round (score 100), any 10 distinct wrong
letter guesses with no elapsed time exhaust the score (10 points per wrong
guess) and the round reaches the terminal `lostScore` state: the round
terminates within initial_score / 10 = 10 wrong guesses. -/
theorem score_exhaustion_bound (w : List Char) (gs : List Char)
    (hw : w ≠ []) (hnd : gs.Nodup) (hlen : gs.length = 10)
    (hgs : ∀ c ∈ gs, c.isAlpha ∧ c ∉ (initState w).word) :
    ∃ s1, playGuesses (initState w) (gs.map (fun c => ([c], 0, 0))) =
      .lostScore s1 := by
  refine lostScore_of_all_wrong gs (initState w) hnd ?_ ?_ ?_ ?_ ?_
  · intro c hc
    exact ⟨(hgs c hc).2, by simp [initState, create_game_state]⟩
  · norm_num [initState, create_game_state, INITIAL_TIME]
  · rcases w with _ | ⟨a, as⟩
    · exact absurd rfl hw
    · exact ⟨a.toLower, by simp [initState, create_game_state],
        by simp [initState, create_game_state]⟩
  · norm_num [initState, create_game_state, MAX_SCORE]
  · rw [hlen]
    norm_num [initState, create_game_state, MAX_SCORE]

/-- Witness for C8: on the word "cat", the ten distinct wrong letters
b, d, e, f, g, h, i, j, k, l end the round in `lostScore`. -/
theorem score_exhaustion_bound_witness :
    ∃ s1, playGuesses (initState ['c', 'a', 't'])
        ((['b', 'd', 'e', 'f', 'g', 'h', 'i', 'j', 'k', 'l'] : List Char).map
          (fun c => ([c], 0, 0))) = .lostScore s1 :=
  score_exhaustion_bound ['c', 'a', 't']
    ['b', 'd', 'e', 'f', 'g', 'h', 'i', 'j', 'k', 'l']
    (by decide) (by decide) (by decide) (by decide)

end H2Quiz
